import Mathlib

/-!
Verification of the terminal UI rendering and input engine (`src/tui/tui.py`).

The Python module is shallowly embedded: terminal output is modelled as the
`String` whose UTF-8 encoding is the byte stream written to file descriptor 1
(every escape sequence the engine emits is ASCII, so string concatenation is
byte-faithful), Python `int` values are `Nat` or `Int` as the source
demands, Python lists are `List`, and the mutable dictionaries (`terminal`,
`region`, the app state's ring-buffer fields) become structures threaded
through the functions.  Side-effecting OS calls of the lifecycle manager are
reified as an explicit syscall trace.
-/

namespace Tui

/-! ## Constants (`tui.py` lines 7-40) -/

def COLOR_DEFAULT : Nat := 0x00000000
def COLOR_TAG_IDX : Nat := 0x01000000
def COLOR_TAG_RGB : Nat := 0x02000000

def MOD_BOLD          : Nat := 1 <<< 0
def MOD_DIM           : Nat := 1 <<< 1
def MOD_ITALIC        : Nat := 1 <<< 2
def MOD_UNDERLINE     : Nat := 1 <<< 3
def MOD_STRIKETHROUGH : Nat := 1 <<< 4
def MOD_REVERSE       : Nat := 1 <<< 5
def MOD_HIDDEN        : Nat := 1 <<< 6
def MOD_BLINK         : Nat := 1 <<< 7

def MOD_KEY_SHIFT : Nat := 1 <<< 0
def MOD_KEY_CTRL  : Nat := 1 <<< 1
def MOD_KEY_ALT   : Nat := 1 <<< 2
def MOD_KEY_SUPER : Nat := 1 <<< 3

def RING_BUFFER_CAPACITY : Nat := 64

/-- A grid cell `(symbol, foreground, background, modifiers)`.  The Python
symbol is a one-character string; it is modelled as a `Char`. -/
structure Cell where
  symbol : Char
  fg : Nat
  bg : Nat
  mods : Nat
deriving DecidableEq, Repr

def BLANK_CELL : Cell := ⟨' ', COLOR_DEFAULT, COLOR_DEFAULT, 0⟩

/-! ## Color/style codec (`tui.py` lines 146-223) -/

def build_color_escape_fg (color : Nat) : String :=
  let tag := color &&& 0xFF000000
  let value := color &&& 0x00FFFFFF
  if tag = COLOR_DEFAULT then "\x1b[39m"
  else if tag = COLOR_TAG_IDX then
    let index := value &&& 0xFF
    "\x1b[38;5;" ++ toString index ++ "m"
  else if tag = COLOR_TAG_RGB then
    let red   := (value >>> 16) &&& 0xFF
    let green := (value >>> 8) &&& 0xFF
    let blue  := value &&& 0xFF
    "\x1b[38;2;" ++ toString red ++ ";" ++ toString green ++ ";" ++ toString blue ++ "m"
  else "\x1b[39m"

def build_color_escape_bg (color : Nat) : String :=
  let tag := color &&& 0xFF000000
  let value := color &&& 0x00FFFFFF
  if tag = COLOR_DEFAULT then "\x1b[49m"
  else if tag = COLOR_TAG_IDX then
    let index := value &&& 0xFF
    "\x1b[48;5;" ++ toString index ++ "m"
  else if tag = COLOR_TAG_RGB then
    let red   := (value >>> 16) &&& 0xFF
    let green := (value >>> 8) &&& 0xFF
    let blue  := value &&& 0xFF
    "\x1b[48;2;" ++ toString red ++ ";" ++ toString green ++ ";" ++ toString blue ++ "m"
  else "\x1b[49m"

def build_modifier_escape (modifiers : Nat) : String :=
  let buf := "\x1b[0m"
  let buf := if modifiers &&& MOD_BOLD ≠ 0 then buf ++ "\x1b[1m" else buf
  let buf := if modifiers &&& MOD_DIM ≠ 0 then buf ++ "\x1b[2m" else buf
  let buf := if modifiers &&& MOD_ITALIC ≠ 0 then buf ++ "\x1b[3m" else buf
  let buf := if modifiers &&& MOD_UNDERLINE ≠ 0 then buf ++ "\x1b[4m" else buf
  let buf := if modifiers &&& MOD_BLINK ≠ 0 then buf ++ "\x1b[5m" else buf
  let buf := if modifiers &&& MOD_REVERSE ≠ 0 then buf ++ "\x1b[7m" else buf
  let buf := if modifiers &&& MOD_HIDDEN ≠ 0 then buf ++ "\x1b[8m" else buf
  let buf := if modifiers &&& MOD_STRIKETHROUGH ≠ 0 then buf ++ "\x1b[9m" else buf
  buf

/-- The memoization cache keyed by `(fg_color, bg_color, modifiers)`.  The
Python `dict` becomes an association list (keys are unique, insertion
prepends). -/
def StyleCache : Type := List ((Nat × Nat × Nat) × String)

def build_style_cache : StyleCache := []

def get_style_bytes (fg_color bg_color modifiers : Nat) (style_cache : StyleCache) :
    String × StyleCache :=
  let cache_key : Nat × Nat × Nat := (fg_color, bg_color, modifiers)
  match style_cache.lookup cache_key with
  | some cached => (cached, style_cache)
  | none =>
    let result := build_modifier_escape modifiers
      ++ build_color_escape_fg fg_color ++ build_color_escape_bg bg_color
    (result, (cache_key, result) :: style_cache)

/-! ## C8: unknown color tag bytes fall through to the terminal default -/

/-- C8: for every 32-bit color value whose tag byte is none of the `DEFAULT`,
`INDEXED`, or `RGB` discriminants, both escape builders return the reset-to-
terminal-default SGR, identical to what they return for `COLOR_DEFAULT`, and
never fail. -/
theorem claim_C8_unknown_color_tag (color : Nat)
    (hsize : color < 2 ^ 32)
    (h1 : color &&& 0xFF000000 ≠ COLOR_DEFAULT)
    (h2 : color &&& 0xFF000000 ≠ COLOR_TAG_IDX)
    (h3 : color &&& 0xFF000000 ≠ COLOR_TAG_RGB) :
    build_color_escape_fg color = "\x1b[39m"
    ∧ build_color_escape_bg color = "\x1b[49m"
    ∧ build_color_escape_fg color = build_color_escape_fg COLOR_DEFAULT
    ∧ build_color_escape_bg color = build_color_escape_bg COLOR_DEFAULT := by
  refine ⟨?_, ?_, ?_, ?_⟩ <;>
    simp [build_color_escape_fg, build_color_escape_bg, h1, h2, h3, COLOR_DEFAULT]

/-- C8 witness: the concrete out-of-range tag byte `0x7F`. -/
theorem claim_C8_witness :
    build_color_escape_fg 0x7F123456 = "\x1b[39m"
    ∧ build_color_escape_bg 0x7F123456 = "\x1b[49m"
    ∧ build_color_escape_fg 0x7F123456 = build_color_escape_fg COLOR_DEFAULT
    ∧ build_color_escape_bg 0x7F123456 = build_color_escape_bg COLOR_DEFAULT :=
  claim_C8_unknown_color_tag 0x7F123456 (by decide) (by decide) (by decide) (by decide)

/-! ## Terminal lifecycle (`tui.py` lines 116-136)

`restore_terminal` performs three OS side effects when armed (restore the
saved termios attributes, show the cursor, exit the alternate screen buffer)
and none when disarmed.  The side effects are reified as a syscall trace. -/

inductive Syscall where
  | tcsetattr (attrs : List Int)
  | writeOut (data : String)
deriving DecidableEq, Repr

/-- The `terminal` dictionary of the source. -/
structure Terminal where
  width : Nat
  height : Nat
  original_termios : Option (List Int)
deriving DecidableEq, Repr

/-- `restore_terminal(terminal)`: when `original_termios` is `None` it
returns immediately; otherwise it restores the saved attributes, disarms the
handle, shows the cursor and exits the alternate screen buffer. -/
def restore_terminal (terminal : Terminal) : Terminal × List Syscall :=
  match terminal.original_termios with
  | none => (terminal, [])
  | some saved_termios =>
    ({ terminal with original_termios := none },
     [Syscall.tcsetattr saved_termios,
      Syscall.writeOut "\x1b[?25h",
      Syscall.writeOut "\x1b[?1049l"])

/-- C1: `restore_terminal` is idempotent — the first call on a state with
saved attributes performs exactly the restoration syscalls (restore termios,
show cursor, exit alternate screen) and clears the saved-attributes handle;
the second call performs no syscall and leaves the state unchanged, hence so
does every later call. -/
theorem claim_C1_restore_terminal_idempotent (terminal : Terminal) (attrs : List Int)
    (h : terminal.original_termios = some attrs) :
    (restore_terminal terminal).2 =
      [Syscall.tcsetattr attrs, Syscall.writeOut "\x1b[?25h", Syscall.writeOut "\x1b[?1049l"]
    ∧ (restore_terminal terminal).1.original_termios = none
    ∧ restore_terminal (restore_terminal terminal).1 = ((restore_terminal terminal).1, []) := by
  simp [restore_terminal, h]

/-- C1 witness: a concrete armed terminal state. -/
theorem claim_C1_witness :
    (restore_terminal ⟨80, 24, some [1, 2, 3]⟩).2 =
      [Syscall.tcsetattr [1, 2, 3], Syscall.writeOut "\x1b[?25h", Syscall.writeOut "\x1b[?1049l"]
    ∧ (restore_terminal ⟨80, 24, some [1, 2, 3]⟩).1.original_termios = none
    ∧ restore_terminal (restore_terminal ⟨80, 24, some [1, 2, 3]⟩).1 =
        ((restore_terminal ⟨80, 24, some [1, 2, 3]⟩).1, []) :=
  claim_C1_restore_terminal_idempotent ⟨80, 24, some [1, 2, 3]⟩ [1, 2, 3] rfl

/-! ## Differential renderer (`tui.py` lines 271-345)

`flush_diff` accumulates all writes in one buffer and performs a single
`os.write` at the end; the accumulated buffer is the `output` field below.
Cell indexing uses `List.getD` with the blank cell as default; the stated
theorems carry the grid invariant `length = width * height`, under which the
default is never consulted (Python would raise `IndexError` outside it). -/

/-- `row_has_changed(current, previous, row_start, row_end)`. -/
def row_has_changed (current_cells previous_cells : List Cell) (row_start row_end : Nat) : Bool :=
  (List.range' row_start (row_end - row_start)).any fun index =>
    decide (current_cells.getD index BLANK_CELL ≠ previous_cells.getD index BLANK_CELL)

/-- The style-delta registers, the accumulated output buffer and the style
cache threaded through a flush.  The sentinel `-1` registers force a style
emit on the first changed cell, hence `Int`. -/
structure FlushState where
  output : String
  register_fg : Int
  register_bg : Int
  register_mods : Int
  cache : StyleCache

/-- Absolute cursor positioning escape (1-based row and column). -/
def position_escape (row column : Nat) : String :=
  "\x1b[" ++ toString (row + 1) ++ ";" ++ toString (column + 1) ++ "H"

/-- One column step of the inner loop of `flush_diff`: the second component
of the accumulator is `cursor_at_column` (`-1` = unknown). -/
def flush_diff_cell (current_cells previous_cells : List Cell) (row width : Nat)
    (acc : FlushState × Int) (column : Nat) : FlushState × Int :=
  let st := acc.1
  let cursor_at_column := acc.2
  let cell_index := row * width + column
  let current_cell := current_cells.getD cell_index BLANK_CELL
  let previous_cell := previous_cells.getD cell_index BLANK_CELL
  if current_cell = previous_cell then
    (st, -1)
  else
    let out := if cursor_at_column ≠ (column : Int)
      then st.output ++ position_escape row column else st.output
    if (current_cell.fg : Int) ≠ st.register_fg
        ∨ (current_cell.bg : Int) ≠ st.register_bg
        ∨ (current_cell.mods : Int) ≠ st.register_mods then
      let style := get_style_bytes current_cell.fg current_cell.bg current_cell.mods st.cache
      (⟨out ++ style.1 ++ String.singleton current_cell.symbol,
        current_cell.fg, current_cell.bg, current_cell.mods, style.2⟩,
       (column : Int) + 1)
    else
      ({ st with output := out ++ String.singleton current_cell.symbol }, (column : Int) + 1)

/-- One row of `flush_diff`: unchanged rows are skipped entirely; a changed
row is scanned left to right with the cursor position reset to unknown. -/
def flush_diff_row (current_cells previous_cells : List Cell) (width : Nat)
    (st : FlushState) (row : Nat) : FlushState :=
  let row_start := row * width
  if row_has_changed current_cells previous_cells row_start (row_start + width) then
    ((List.range width).foldl (flush_diff_cell current_cells previous_cells row width) (st, -1)).1
  else
    st

/-- The result of `flush_diff`: the bytes written to file descriptor 1, the
new `previous` array, and the (possibly grown) style cache. -/
structure DiffResult where
  output : String
  previous_cells : List Cell
  style_cache : StyleCache

/-- `flush_diff(current_cells, previous_cells, width, height, style_cache)`. -/
def flush_diff (current_cells previous_cells : List Cell) (width height : Nat)
    (style_cache : StyleCache) : DiffResult :=
  let final := (List.range height).foldl
    (flush_diff_row current_cells previous_cells width) ⟨"", -1, -1, -1, style_cache⟩
  { output := final.output ++ "\x1b[0m"
    previous_cells := current_cells
    style_cache := final.cache }

theorem row_has_changed_self (cells : List Cell) (row_start row_end : Nat) :
    row_has_changed cells cells row_start row_end = false := by
  simp [row_has_changed]

theorem foldl_flush_diff_row_self (cells : List Cell) (width : Nat) :
    ∀ (rows : List Nat) (st : FlushState),
      rows.foldl (flush_diff_row cells cells width) st = st := by
  intro rows
  induction rows with
  | nil => intro st; rfl
  | cons row rest ih =>
    intro st
    rw [List.foldl_cons]
    have hrow : flush_diff_row cells cells width st row = st := by
      simp [flush_diff_row, row_has_changed_self]
    rw [hrow, ih]

/-- C2: on a no-op frame (`current == previous` cell-for-cell) `flush_diff`
writes exactly the trailing SGR-reset byte sequence `ESC [ 0 m` — no cursor
moves, no style escapes, no glyphs. -/
theorem claim_C2_noop_frame_writes_only_reset (current_cells previous_cells : List Cell)
    (width height : Nat) (style_cache : StyleCache)
    (heq : current_cells = previous_cells)
    (hlen : current_cells.length = width * height) :
    (flush_diff current_cells previous_cells width height style_cache).output = "\x1b[0m" := by
  subst heq
  simp [flush_diff, foldl_flush_diff_row_self]

/-- C2 witness: a concrete 2×2 grid equal to its previous frame. -/
theorem claim_C2_witness :
    (flush_diff
      [⟨'x', 3, 0, 1⟩, BLANK_CELL, BLANK_CELL, ⟨'y', 0, 5, 0⟩]
      [⟨'x', 3, 0, 1⟩, BLANK_CELL, BLANK_CELL, ⟨'y', 0, 5, 0⟩]
      2 2 build_style_cache).output = "\x1b[0m" :=
  claim_C2_noop_frame_writes_only_reset
    [⟨'x', 3, 0, 1⟩, BLANK_CELL, BLANK_CELL, ⟨'y', 0, 5, 0⟩]
    [⟨'x', 3, 0, 1⟩, BLANK_CELL, BLANK_CELL, ⟨'y', 0, 5, 0⟩]
    2 2 build_style_cache rfl rfl

/-- C3: after every `flush_diff` call the `previous` array is replaced with a
copy of `current` (the source's final `previous_cells[:] = current_cells[:]`),
so mutating `current` afterwards cannot make `previous` reflect the pre-flush
frame. -/
theorem claim_C3_previous_equals_current_after_flush
    (current_cells previous_cells : List Cell) (width height : Nat)
    (style_cache : StyleCache)
    (hlen_cur : current_cells.length = width * height)
    (hlen_prev : previous_cells.length = width * height) :
    (flush_diff current_cells previous_cells width height style_cache).previous_cells
      = current_cells := rfl

/-- C3 witness: a concrete 2×1 grid whose frames differ everywhere. -/
theorem claim_C3_witness :
    (flush_diff [⟨'a', 1, 2, 0⟩, ⟨'b', 0, 0, 4⟩] [BLANK_CELL, BLANK_CELL]
      2 1 build_style_cache).previous_cells = [⟨'a', 1, 2, 0⟩, ⟨'b', 0, 0, 4⟩] :=
  claim_C3_previous_equals_current_after_flush
    [⟨'a', 1, 2, 0⟩, ⟨'b', 0, 0, 4⟩] [BLANK_CELL, BLANK_CELL] 2 1 build_style_cache rfl rfl

/-! ## Regions (`tui.py` lines 460-522)

The `region` dictionary becomes a structure.  All geometry fields are Python
ints, so they are modelled as `Int`; `lines` holds the text content. -/

structure Region where
  region_id : Nat
  name : String
  top : Int
  left : Int
  width : Int
  height : Int
  scroll_offset : Int
  lines : List String
  is_focused : Bool
deriving DecidableEq, Repr

/-- `scroll_region(region, delta)`: add `delta` to `scroll_offset`, clamping
below at `0` and above at `max(0, len(lines) - height)`. -/
def scroll_region (region : Region) (delta : Int) : Region :=
  let max_offset : Int := max 0 ((region.lines.length : Int) - region.height)
  let new_offset := region.scroll_offset + delta
  let new_offset := if new_offset < 0 then 0 else new_offset
  let new_offset := if new_offset > max_offset then max_offset else new_offset
  { region with scroll_offset := new_offset }

/-- `page_region(region, direction)`: scroll by `(height - 1) * direction`. -/
def page_region (region : Region) (direction : Int) : Region :=
  let delta := (region.height - 1) * direction
  scroll_region region delta

/-- A step of an arbitrary scrolling interaction sequence: either a
`scroll_region` or a `page_region` call. -/
inductive ScrollOp where
  | scroll (delta : Int)
  | page (direction : Int)
deriving DecidableEq, Repr

def applyScrollOp (region : Region) (op : ScrollOp) : Region :=
  match op with
  | .scroll delta => scroll_region region delta
  | .page direction => page_region region direction

def applyScrollOps (region : Region) (ops : List ScrollOp) : Region :=
  ops.foldl applyScrollOp region

theorem scroll_region_offset_eq (region : Region) (delta : Int) :
    (scroll_region region delta).scroll_offset =
      min (max (region.scroll_offset + delta) 0)
        (max 0 ((region.lines.length : Int) - region.height)) := by
  simp only [scroll_region, Int.min_def, Int.max_def]
  split_ifs <;> omega

theorem scroll_region_lines_height (region : Region) (delta : Int) :
    (scroll_region region delta).lines = region.lines
    ∧ (scroll_region region delta).height = region.height := ⟨rfl, rfl⟩

theorem scroll_region_offset_bounds (region : Region) (delta : Int) :
    0 ≤ (scroll_region region delta).scroll_offset
    ∧ (scroll_region region delta).scroll_offset
        ≤ max 0 ((region.lines.length : Int) - region.height) := by
  rw [scroll_region_offset_eq]
  constructor
  · simp only [Int.min_def, Int.max_def]; split_ifs <;> omega
  · simp only [Int.min_def, Int.max_def]; split_ifs <;> omega

theorem applyScrollOp_offset_bounds (region : Region) (op : ScrollOp) :
    0 ≤ (applyScrollOp region op).scroll_offset
    ∧ (applyScrollOp region op).scroll_offset
        ≤ max 0 ((region.lines.length : Int) - region.height) := by
  cases op with
  | scroll delta => exact scroll_region_offset_bounds region delta
  | page direction => exact scroll_region_offset_bounds region _

theorem applyScrollOp_lines_height (region : Region) (op : ScrollOp) :
    (applyScrollOp region op).lines = region.lines
    ∧ (applyScrollOp region op).height = region.height := by
  cases op <;> exact ⟨rfl, rfl⟩

theorem applyScrollOps_offset_bounds :
    ∀ (ops : List ScrollOp) (region : Region), ops ≠ [] →
      0 ≤ (applyScrollOps region ops).scroll_offset
      ∧ (applyScrollOps region ops).scroll_offset
          ≤ max 0 ((region.lines.length : Int) - region.height) := by
  intro ops
  induction ops with
  | nil => intro region h; exact absurd rfl h
  | cons op rest ih =>
    intro region _
    show 0 ≤ (applyScrollOps (applyScrollOp region op) rest).scroll_offset ∧ _
    cases hrest : rest with
    | nil =>
      simpa [applyScrollOps] using applyScrollOp_offset_bounds region op
    | cons op2 rest2 =>
      have h2 := ih (applyScrollOp region op) (by simp [hrest])
      rw [hrest] at h2
      rwa [(applyScrollOp_lines_height region op).1,
        (applyScrollOp_lines_height region op).2] at h2

/-- C6: a `scroll_region` call adds `delta` to the offset and clamps it into
`[0, max(0, len(lines) - height)]`, for every delta (including ±50000); and
after any non-empty sequence of `scroll_region` / `page_region` calls the
offset lies in that interval. -/
theorem claim_C6_scroll_offset_clamped (region : Region) (delta : Int)
    (ops : List ScrollOp) (hops : ops ≠ []) :
    (scroll_region region delta).scroll_offset =
      min (max (region.scroll_offset + delta) 0)
        (max 0 ((region.lines.length : Int) - region.height))
    ∧ 0 ≤ (applyScrollOps region ops).scroll_offset
    ∧ (applyScrollOps region ops).scroll_offset
        ≤ max 0 ((region.lines.length : Int) - region.height) := by
  have hb := applyScrollOps_offset_bounds ops region hops
  exact ⟨scroll_region_offset_eq region delta, hb.1, hb.2⟩

/-- C6 witness: a 10-line, height-3 region hit with Home/End-sized deltas and
a paging sequence; every intermediate clamp keeps the offset in `[0, 7]`. -/
theorem claim_C6_witness :
    (scroll_region
        ⟨0, "r", 0, 0, 4, 3, 2, ["a", "b", "c", "d", "e", "f", "g", "h", "i", "j"], false⟩
        50000).scroll_offset =
      min (max ((2 : Int) + 50000) 0) (max 0 ((10 : Int) - 3))
    ∧ 0 ≤ (applyScrollOps
        ⟨0, "r", 0, 0, 4, 3, 2, ["a", "b", "c", "d", "e", "f", "g", "h", "i", "j"], false⟩
        [ScrollOp.scroll 50000, ScrollOp.page (-1), ScrollOp.scroll (-50000),
         ScrollOp.page 1]).scroll_offset
    ∧ (applyScrollOps
        ⟨0, "r", 0, 0, 4, 3, 2, ["a", "b", "c", "d", "e", "f", "g", "h", "i", "j"], false⟩
        [ScrollOp.scroll 50000, ScrollOp.page (-1), ScrollOp.scroll (-50000),
         ScrollOp.page 1]).scroll_offset
        ≤ max 0 (((["a", "b", "c", "d", "e", "f", "g", "h", "i", "j"] : List String).length : Int)
            - 3) :=
  claim_C6_scroll_offset_clamped
    ⟨0, "r", 0, 0, 4, 3, 2, ["a", "b", "c", "d", "e", "f", "g", "h", "i", "j"], false⟩
    50000
    [ScrollOp.scroll 50000, ScrollOp.page (-1), ScrollOp.scroll (-50000), ScrollOp.page 1]
    (by decide)

/-! ## Region rendering (`tui.py` lines 474-522)

The two nested `for` loops with `continue`/`break` become structural
recursions on the remaining iteration count: `continue` recurses on the
unmodified cell list, `break` returns it.  Writing a cell is `List.set`; the
source's guards keep every written index strictly inside the grid. -/

/-- The inner column loop of `render_region`, at `grid_row`, starting at
`column` with `n` columns left to visit. -/
def render_cols (line_chars : List Char) (fg bg mods grid_width grid_row : Nat) (left : Int) :
    Nat → Nat → List Cell → List Cell
  | _column, 0, cells => cells
  | column, n + 1, cells =>
    let grid_col : Int := left + column
    if grid_col < 0 then
      render_cols line_chars fg bg mods grid_width grid_row left (column + 1) n cells
    else if (grid_width : Int) ≤ grid_col then
      cells
    else
      let cell_index := grid_row * grid_width + grid_col.toNat
      let symbol := line_chars.getD column ' '
      render_cols line_chars fg bg mods grid_width grid_row left (column + 1) n
        (cells.set cell_index ⟨symbol, fg, bg, mods⟩)

/-- The outer row loop of `render_region`, starting at `display_row` with
`n` rows left to visit. -/
def render_rows (region : Region) (grid_width grid_height fg bg mods : Nat) :
    Nat → Nat → List Cell → List Cell
  | _display_row, 0, cells => cells
  | display_row, n + 1, cells =>
    let grid_row : Int := region.top + display_row
    if grid_row < 0 then
      render_rows region grid_width grid_height fg bg mods (display_row + 1) n cells
    else if (grid_height : Int) ≤ grid_row then
      cells
    else
      let source_line_index : Int := (display_row : Int) + region.scroll_offset
      let line : String :=
        if 0 ≤ source_line_index ∧ source_line_index < (region.lines.length : Int) then
          region.lines.getD source_line_index.toNat ""
        else ""
      render_rows region grid_width grid_height fg bg mods (display_row + 1) n
        (render_cols line.data fg bg mods grid_width grid_row.toNat region.left 0
          region.width.toNat cells)

/-- `render_region(region, current_cells, grid_width, default_style)`. -/
def render_region (region : Region) (current_cells : List Cell) (grid_width : Nat)
    (default_style : Nat × Nat × Nat) : List Cell :=
  let grid_height := current_cells.length / grid_width
  render_rows region grid_width grid_height default_style.1 default_style.2.1 default_style.2.2
    0 region.height.toNat current_cells

/-- Whether flat grid index `i` falls inside the region's own rectangle
(`top ≤ row < top + height`, `left ≤ col < left + width`). -/
def inRegionRect (region : Region) (grid_width : Nat) (i : Nat) : Bool :=
  let row : Int := (i / grid_width : Nat)
  let col : Int := (i % grid_width : Nat)
  decide (region.top ≤ row) && decide (row < region.top + region.height)
    && decide (region.left ≤ col) && decide (col < region.left + region.width)

theorem getD_set_ne_cell (l : List Cell) (i j : Nat) (v d : Cell) (h : i ≠ j) :
    (l.set i v).getD j d = l.getD j d := by
  simp [List.getD_eq_getElem?_getD, List.getElem?_set_ne h]

theorem getD_set_self_cell (l : List Cell) (i : Nat) (v d : Cell) (h : i < l.length) :
    (l.set i v).getD i d = v := by
  simp [List.getD_eq_getElem?_getD, List.getElem?_set_self h]

/-- Uniqueness of the row/column decomposition of a flat grid index. -/
theorem grid_index_decomp_eq (w r1 c1 r2 c2 : Nat) (h1 : c1 < w) (h2 : c2 < w) :
    (r1 * w + c1 = r2 * w + c2) ↔ (r1 = r2 ∧ c1 = c2) := by
  constructor
  · intro h
    have hc : c1 = c2 := by
      have m1 : (r1 * w + c1) % w = c1 := by
        rw [Nat.mul_comm r1 w, Nat.mul_add_mod, Nat.mod_eq_of_lt h1]
      have m2 : (r2 * w + c2) % w = c2 := by
        rw [Nat.mul_comm r2 w, Nat.mul_add_mod, Nat.mod_eq_of_lt h2]
      rw [← m1, ← m2, h]
    have hr : r1 = r2 := by
      have hmul : r1 * w = r2 * w := by omega
      exact Nat.eq_of_mul_eq_mul_right (by omega) hmul
    exact ⟨hr, hc⟩
  · intro h
    rw [h.1, h.2]

theorem render_cols_length (cs : List Char) (fg bg mods w gr : Nat) (left : Int) :
    ∀ (n column : Nat) (cells : List Cell),
      (render_cols cs fg bg mods w gr left column n cells).length = cells.length := by
  intro n
  induction n with
  | zero => intro column cells; rfl
  | succ n ih =>
    intro column cells
    rw [render_cols]
    split
    · exact ih (column + 1) cells
    · split
      · rfl
      · rw [ih]
        exact List.length_set ..

theorem render_rows_length (region : Region) (w gh fg bg mods : Nat) :
    ∀ (n display_row : Nat) (cells : List Cell),
      (render_rows region w gh fg bg mods display_row n cells).length = cells.length := by
  intro n
  induction n with
  | zero => intro display_row cells; rfl
  | succ n ih =>
    intro display_row cells
    rw [render_rows]
    split
    · exact ih (display_row + 1) cells
    · split
      · rfl
      · rw [ih, render_cols_length]

theorem render_cols_frame (cs : List Char) (fg bg mods w gr : Nat) (left : Int) :
    ∀ (n column : Nat) (cells : List Cell) (r c : Nat), c < w →
      (r ≠ gr ∨ (c : Int) < left + column ∨ left + column + n ≤ (c : Int)) →
      (render_cols cs fg bg mods w gr left column n cells).getD (r * w + c) BLANK_CELL
        = cells.getD (r * w + c) BLANK_CELL := by
  intro n
  induction n with
  | zero => intro column cells r c _ _; rfl
  | succ n ih =>
    intro column cells r c hc hcond
    simp only [render_cols]
    by_cases h1 : left + (column : Int) < 0
    · rw [if_pos h1]
      refine ih (column + 1) cells r c hc ?_
      rcases hcond with h | h | h
      · exact Or.inl h
      · omega
      · omega
    · rw [if_neg h1]
      by_cases h2 : (w : Int) ≤ left + (column : Int)
      · rw [if_pos h2]
      · rw [if_neg h2]
        have hg : (left + (column : Int)).toNat < w := by omega
        have hne : gr * w + (left + (column : Int)).toNat ≠ r * w + c := by
          intro heq
          rcases (grid_index_decomp_eq w gr _ r c hg hc).mp heq with ⟨hr, hcc⟩
          rcases hcond with h | h | h
          · exact h hr.symm
          · omega
          · omega
        rw [ih (column + 1) _ r c hc ?_, getD_set_ne_cell _ _ _ _ _ hne]
        rcases hcond with h | h | h
        · exact Or.inl h
        · omega
        · omega

theorem render_cols_write_blank (fg bg mods w gr : Nat) (left : Int) (hw : 0 < w) :
    ∀ (n column : Nat) (cells : List Cell) (r c : Nat), c < w →
      r * w + c < cells.length →
      r = gr →
      left + column ≤ (c : Int) →
      (c : Int) < left + column + n →
      (render_cols [] fg bg mods w gr left column n cells).getD (r * w + c) BLANK_CELL
        = ⟨' ', fg, bg, mods⟩ := by
  intro n
  induction n with
  | zero =>
    intro column cells r c _ _ _ hlo hhi
    exfalso
    omega
  | succ n ih =>
    intro column cells r c hc hlen hr hlo hhi
    simp only [render_cols]
    by_cases h1 : left + (column : Int) < 0
    · rw [if_pos h1]
      exact ih (column + 1) cells r c hc hlen hr (by omega) (by omega)
    · rw [if_neg h1]
      by_cases h2 : (w : Int) ≤ left + (column : Int)
      · exfalso
        omega
      · rw [if_neg h2]
        by_cases heq : (c : Int) = left + (column : Int)
        · have hcg : (left + (column : Int)).toNat = c := by omega
          rw [render_cols_frame [] fg bg mods w gr left n (column + 1) _ r c hc
              (Or.inr (Or.inl (by omega)))]
          have hidx : gr * w + (left + (column : Int)).toNat = r * w + c := by
            rw [hcg, hr]
          rw [hidx, getD_set_self_cell _ _ _ _ hlen]
          simp
        · exact ih (column + 1) _ r c hc (by simpa using hlen) hr (by omega) (by omega)

theorem render_rows_frame (region : Region) (w gh fg bg mods : Nat) :
    ∀ (n display_row : Nat) (cells : List Cell) (r c : Nat), c < w →
      ¬(region.top + display_row ≤ (r : Int)
          ∧ (r : Int) < region.top + display_row + n
          ∧ region.left ≤ (c : Int)
          ∧ (c : Int) < region.left + region.width.toNat) →
      (render_rows region w gh fg bg mods display_row n cells).getD (r * w + c) BLANK_CELL
        = cells.getD (r * w + c) BLANK_CELL := by
  intro n
  induction n with
  | zero => intro display_row cells r c _ _; rfl
  | succ n ih =>
    intro display_row cells r c hc hcond
    simp only [render_rows]
    by_cases h1 : region.top + (display_row : Int) < 0
    · rw [if_pos h1]
      refine ih (display_row + 1) cells r c hc ?_
      intro hcon
      exact hcond ⟨by omega, by omega, hcon.2.2.1, hcon.2.2.2⟩
    · rw [if_neg h1]
      by_cases h2 : (gh : Int) ≤ region.top + (display_row : Int)
      · rw [if_pos h2]
      · rw [if_neg h2]
        rw [ih (display_row + 1) _ r c hc ?_]
        · refine render_cols_frame _ fg bg mods w _ region.left region.width.toNat 0 cells r c hc ?_
          by_cases hr : (r : Int) = region.top + (display_row : Int)
          · by_cases hC : region.left ≤ (c : Int)
            · refine Or.inr (Or.inr ?_)
              by_contra hD
              exact hcond ⟨by omega, by omega, hC, by omega⟩
            · exact Or.inr (Or.inl (by omega))
          · exact Or.inl (by omega)
        · intro hcon
          exact hcond ⟨by omega, by omega, hcon.2.2.1, hcon.2.2.2⟩

theorem render_rows_write_blank (region : Region) (w gh fg bg mods : Nat) (hw : 0 < w)
    (hscroll : (region.lines.length : Int) ≤ region.scroll_offset) :
    ∀ (n display_row : Nat) (cells : List Cell) (r c : Nat), c < w →
      r * w + c < cells.length →
      r < gh →
      region.top + display_row ≤ (r : Int) →
      (r : Int) < region.top + display_row + n →
      region.left ≤ (c : Int) →
      (c : Int) < region.left + region.width →
      (render_rows region w gh fg bg mods display_row n cells).getD (r * w + c) BLANK_CELL
        = ⟨' ', fg, bg, mods⟩ := by
  intro n
  induction n with
  | zero =>
    intro display_row cells r c _ _ _ hlo hhi _ _
    exfalso
    omega
  | succ n ih =>
    intro display_row cells r c hc hlen hgh hlo hhi hcl hch
    simp only [render_rows]
    by_cases h1 : region.top + (display_row : Int) < 0
    · rw [if_pos h1]
      exact ih (display_row + 1) cells r c hc hlen hgh (by omega) (by omega) hcl hch
    · rw [if_neg h1]
      by_cases h2 : (gh : Int) ≤ region.top + (display_row : Int)
      · exfalso
        omega
      · rw [if_neg h2]
        have hline : ¬(0 ≤ (display_row : Int) + region.scroll_offset
            ∧ (display_row : Int) + region.scroll_offset < (region.lines.length : Int)) := by
          omega
        rw [if_neg hline]
        by_cases hr : (r : Int) = region.top + (display_row : Int)
        · rw [render_rows_frame region w gh fg bg mods n (display_row + 1) _ r c hc
              (fun hcon => by omega)]
          have hdata : ("" : String).data = [] := rfl
          rw [hdata]
          exact render_cols_write_blank fg bg mods w _ region.left hw region.width.toNat 0
            cells r c hc hlen (by omega) (by omega) (by omega)
        · exact ih (display_row + 1) _ r c hc (by rw [render_cols_length]; exact hlen)
            hgh (by omega) (by omega) hcl hch

theorem inRegionRect_iff (region : Region) (w i : Nat) :
    inRegionRect region w i = true ↔
      (region.top ≤ ((i / w : Nat) : Int)
        ∧ ((i / w : Nat) : Int) < region.top + region.height
        ∧ region.left ≤ ((i % w : Nat) : Int)
        ∧ ((i % w : Nat) : Int) < region.left + region.width) := by
  simp [inRegionRect, Bool.and_eq_true, decide_eq_true_eq, and_assoc]

/-- C9: `render_region` is clipping-safe.  The rendered grid keeps its
length; every cell outside the region's own rectangle is untouched (so a
rectangle partly outside the grid never writes out of bounds); and when
`scroll_offset` is at or past `len(lines)` every in-grid cell of the
rectangle is filled with a blank (space) cell in the caller's default style
— all without any index error. -/
theorem claim_C9_render_region_clips (region : Region) (cells : List Cell)
    (grid_width gh : Nat) (style : Nat × Nat × Nat)
    (hw : 0 < grid_width) (hlen : cells.length = grid_width * gh) :
    (render_region region cells grid_width style).length = cells.length
    ∧ (∀ i, i < cells.length → inRegionRect region grid_width i = false →
        (render_region region cells grid_width style).getD i BLANK_CELL
          = cells.getD i BLANK_CELL)
    ∧ ((region.lines.length : Int) ≤ region.scroll_offset →
        ∀ i, i < cells.length → inRegionRect region grid_width i = true →
        (render_region region cells grid_width style).getD i BLANK_CELL
          = ⟨' ', style.1, style.2.1, style.2.2⟩) := by
  have hgh : cells.length / grid_width = gh := by
    rw [hlen, Nat.mul_div_cancel_left _ hw]
  refine ⟨?_, ?_, ?_⟩
  · simp only [render_region]
    exact render_rows_length ..
  · intro i hi hrect
    have hdec : i / grid_width * grid_width + i % grid_width = i := by
      rw [Nat.mul_comm]
      exact Nat.div_add_mod i grid_width
    have hc : i % grid_width < grid_width := Nat.mod_lt _ hw
    have hnot : ¬(region.top ≤ ((i / grid_width : Nat) : Int)
        ∧ ((i / grid_width : Nat) : Int) < region.top + region.height
        ∧ region.left ≤ ((i % grid_width : Nat) : Int)
        ∧ ((i % grid_width : Nat) : Int) < region.left + region.width) := by
      intro hcon
      rw [(inRegionRect_iff region grid_width i).mpr hcon] at hrect
      exact Bool.noConfusion hrect
    simp only [render_region, hgh]
    have := render_rows_frame region grid_width gh style.1 style.2.1 style.2.2
      region.height.toNat 0 cells (i / grid_width) (i % grid_width) hc ?_
    · rw [hdec] at this
      exact this
    · intro hcon
      rcases hcon with ⟨ha, hb, hcc, hd⟩
      exact hnot ⟨by omega, by omega, by omega, by omega⟩
  · intro hscroll i hi hrect
    have hdec : i / grid_width * grid_width + i % grid_width = i := by
      rw [Nat.mul_comm]
      exact Nat.div_add_mod i grid_width
    have hc : i % grid_width < grid_width := Nat.mod_lt _ hw
    rcases (inRegionRect_iff region grid_width i).mp hrect with ⟨ha, hb, hcc, hd⟩
    have hrlt : i / grid_width < gh := by
      have hi2 : i < gh * grid_width := by
        rw [Nat.mul_comm gh grid_width]
        omega
      exact (Nat.div_lt_iff_lt_mul hw).mpr hi2
    simp only [render_region, hgh]
    have := render_rows_write_blank region grid_width gh style.1 style.2.1 style.2.2 hw hscroll
      region.height.toNat 0 cells (i / grid_width) (i % grid_width) hc
      (by rw [hdec]; exact hi) hrlt (by omega) (by omega) hcc hd
    rw [hdec] at this
    exact this

/-- C9 witness: a 2×2 grid, a 1×1 region at the origin scrolled past its
single line; the region cell is blanked in the default style, the three
other cells stay untouched. -/
theorem claim_C9_witness :
    (render_region ⟨0, "r", 0, 0, 1, 1, 5, ["ab"], false⟩
        [BLANK_CELL, ⟨'k', 1, 1, 1⟩, ⟨'m', 2, 2, 2⟩, ⟨'n', 3, 3, 3⟩] 2 (7, 0, 0)).length
      = ([BLANK_CELL, ⟨'k', 1, 1, 1⟩, ⟨'m', 2, 2, 2⟩, ⟨'n', 3, 3, 3⟩] : List Cell).length
    ∧ (∀ i, i < ([BLANK_CELL, ⟨'k', 1, 1, 1⟩, ⟨'m', 2, 2, 2⟩, ⟨'n', 3, 3, 3⟩] : List Cell).length →
        inRegionRect ⟨0, "r", 0, 0, 1, 1, 5, ["ab"], false⟩ 2 i = false →
        (render_region ⟨0, "r", 0, 0, 1, 1, 5, ["ab"], false⟩
            [BLANK_CELL, ⟨'k', 1, 1, 1⟩, ⟨'m', 2, 2, 2⟩, ⟨'n', 3, 3, 3⟩] 2 (7, 0, 0)).getD i
            BLANK_CELL
          = ([BLANK_CELL, ⟨'k', 1, 1, 1⟩, ⟨'m', 2, 2, 2⟩, ⟨'n', 3, 3, 3⟩] : List Cell).getD i
            BLANK_CELL)
    ∧ (((["ab"] : List String).length : Int) ≤ 5 →
        ∀ i, i < ([BLANK_CELL, ⟨'k', 1, 1, 1⟩, ⟨'m', 2, 2, 2⟩, ⟨'n', 3, 3, 3⟩] : List Cell).length →
        inRegionRect ⟨0, "r", 0, 0, 1, 1, 5, ["ab"], false⟩ 2 i = true →
        (render_region ⟨0, "r", 0, 0, 1, 1, 5, ["ab"], false⟩
            [BLANK_CELL, ⟨'k', 1, 1, 1⟩, ⟨'m', 2, 2, 2⟩, ⟨'n', 3, 3, 3⟩] 2 (7, 0, 0)).getD i
            BLANK_CELL
          = ⟨' ', 7, 0, 0⟩) :=
  claim_C9_render_region_clips ⟨0, "r", 0, 0, 1, 1, 5, ["ab"], false⟩
    [BLANK_CELL, ⟨'k', 1, 1, 1⟩, ⟨'m', 2, 2, 2⟩, ⟨'n', 3, 3, 3⟩] 2 2 (7, 0, 0)
    (by decide) (by decide)

/-! ## Input decoding (`tui.py` lines 531-747)

Raw input is a `List Nat` of byte values.  The event dictionaries become a
structure whose `kind` is the source's kind string. -/

structure Event where
  kind : String
  char : String
  raw : List Nat
  modifiers : Nat
deriving DecidableEq, Repr

/-- Python's `raw_bytes[start:stop]` slice. -/
def listSlice (l : List Nat) (start stop : Nat) : List Nat :=
  (l.drop start).take (stop - start)

/-- The CSI parameter-collection loop: gather digit and semicolon bytes from
`index` on, returning the collected characters and the index of the first
non-parameter byte.  Structural recursion on the remaining length. -/
def collectParamsAux : Nat → List Nat → Nat → List Char × Nat
  | 0, _, index => ([], index)
  | fuel + 1, raw_bytes, index =>
    if h : index < raw_bytes.length then
      let current_byte := raw_bytes.getD index 0
      if (48 ≤ current_byte ∧ current_byte ≤ 57) ∨ current_byte = 59 then
        let rest := collectParamsAux fuel raw_bytes (index + 1)
        (Char.ofNat current_byte :: rest.1, rest.2)
      else ([], index)
    else ([], index)

def collectParams (raw_bytes : List Nat) (index : Nat) : List Char × Nat :=
  collectParamsAux (raw_bytes.length - index) raw_bytes index

/-- Python `str.split(';')` on a non-empty string of parameter characters
(`"1;5"` → `["1","5"]`, `";"` → `["",""]`). -/
def splitSemis : List Char → List (List Char)
  | [] => [[]]
  | ch :: rest =>
    match splitSemis rest with
    | [] => if ch = ';' then [[], []] else [[ch]]
    | grp :: grps => if ch = ';' then [] :: grp :: grps else (ch :: grp) :: grps

/-- Python `int(field)` under the source's `try/except ValueError` that
leaves `modifier_param = 0`: an empty or non-digit field yields `0`. -/
def parseIntParam (s : String) : Nat :=
  if s.data ≠ [] ∧ s.data.all (fun ch => decide ('0' ≤ ch ∧ ch ≤ '9')) then
    s.data.foldl (fun acc ch => acc * 10 + (ch.toNat - 48)) 0
  else 0

/-- Python's `x & mask != 0` on an arbitrary-precision int, for the one
negative value reachable here (`x = modifier_param - 1 ≥ -1`): in two's
complement `-1` has every bit set, so the test is true for every non-zero
mask. -/
def intTestBitMask (x : Int) (mask : Nat) : Bool :=
  if x < 0 then true else decide (x.toNat &&& mask ≠ 0)

/-- The XTerm modifier decoding block (`tui.py` lines 693-708): subtract one
from the encoded value and re-map the XTerm bit positions (0=Shift, 1=Alt,
2=Ctrl, 3=Super) onto the engine's own `MOD_KEY_*` bit positions. -/
def remapXtermModifier (modifier_param : Nat) : Nat :=
  let xterm_bits : Int := (modifier_param : Int) - 1
  let modifiers : Nat := 0
  let modifiers := if intTestBitMask xterm_bits 1 then modifiers ||| MOD_KEY_SHIFT else modifiers
  let modifiers := if intTestBitMask xterm_bits 2 then modifiers ||| MOD_KEY_ALT else modifiers
  let modifiers := if intTestBitMask xterm_bits 4 then modifiers ||| MOD_KEY_CTRL else modifiers
  let modifiers := if intTestBitMask xterm_bits 8 then modifiers ||| MOD_KEY_SUPER else modifiers
  modifiers

/-- `parse_escape_sequence(raw_bytes, start_index)`: `start_index` points at
`0x1B`; returns the decoded event (or `none` for malformed/incomplete input)
and the next unprocessed index. -/
def parse_escape_sequence (raw_bytes : List Nat) (start_index : Nat) : Option Event × Nat :=
  let index := start_index + 1
  if raw_bytes.length ≤ index then
    (some ⟨"escape", "", [0x1B], 0⟩, index)
  else
    let next_byte := raw_bytes.getD index 0
    if next_byte = 79 then
      let index := index + 1
      if raw_bytes.length ≤ index then
        (none, index)
      else
        let ss3_final := raw_bytes.getD index 0
        let index := index + 1
        let ss3_kind :=
          if ss3_final = 65 then "arrow_up"
          else if ss3_final = 66 then "arrow_down"
          else if ss3_final = 67 then "arrow_right"
          else if ss3_final = 68 then "arrow_left"
          else ""
        if ss3_kind = "" then (none, index)
        else (some ⟨ss3_kind, "", listSlice raw_bytes start_index index, 0⟩, index)
    else if next_byte ≠ 91 then
      (some ⟨"escape", "", [0x1B], 0⟩, index)
    else
      let index := index + 1
      let collected := collectParams raw_bytes index
      let param_chars := collected.1
      let index := collected.2
      if raw_bytes.length ≤ index then
        (none, index)
      else
        let final_byte := raw_bytes.getD index 0
        let index := index + 1
        let params : List String :=
          if param_chars = [] then [] else (splitSemis param_chars).map String.mk
        let modifiers : Nat :=
          if 2 ≤ params.length then remapXtermModifier (parseIntParam (params.getD 1 ""))
          else 0
        let first_param := params.getD 0 ""
        let raw_slice := listSlice raw_bytes start_index index
        let kind :=
          if final_byte = 65 then "arrow_up"
          else if final_byte = 66 then "arrow_down"
          else if final_byte = 67 then "arrow_right"
          else if final_byte = 68 then "arrow_left"
          else if final_byte = 72 then "home"
          else if final_byte = 70 then "end"
          else if final_byte = 126 then
            if first_param = "1" ∨ first_param = "7" then "home"
            else if first_param = "4" ∨ first_param = "8" then "end"
            else if first_param = "5" then "page_up"
            else if first_param = "6" then "page_down"
            else ""
          else ""
        if kind = "" then (none, index)
        else (some ⟨kind, "", raw_slice, modifiers⟩, index)

theorem nat_land_pow_ne (k j : Nat) : (k &&& 2 ^ j ≠ 0) = (k.testBit j = true) := by
  rw [Nat.and_two_pow k j]
  cases h : k.testBit j <;> simp [Nat.pow_eq_zero]

theorem land_one_ne (k : Nat) : (k &&& 1 ≠ 0) ↔ (k.testBit 0 = true) := by
  rw [Nat.and_one_is_mod, Nat.testBit_zero]
  simp only [decide_eq_true_eq]
  omega

theorem land_two_ne (k : Nat) : (k &&& 2 ≠ 0) ↔ (k.testBit 1 = true) := by
  have h : k &&& 2 = (k.testBit 1).toNat * 2 := by
    have h2 := Nat.and_two_pow k 1
    norm_num at h2
    exact h2
  rw [h]
  cases hb : k.testBit 1 <;> simp

theorem land_four_ne (k : Nat) : (k &&& 4 ≠ 0) ↔ (k.testBit 2 = true) := by
  have h : k &&& 4 = (k.testBit 2).toNat * 4 := by
    have h2 := Nat.and_two_pow k 2
    norm_num at h2
    exact h2
  rw [h]
  cases hb : k.testBit 2 <;> simp

theorem land_eight_ne (k : Nat) : (k &&& 8 ≠ 0) ↔ (k.testBit 3 = true) := by
  have h : k &&& 8 = (k.testBit 3).toNat * 8 := by
    have h2 := Nat.and_two_pow k 3
    norm_num at h2
    exact h2
  rw [h]
  cases hb : k.testBit 3 <;> simp

theorem remapXtermModifier_eq (m : Nat) (hm : 1 ≤ m) :
    remapXtermModifier m =
      (if (m - 1).testBit 0 then MOD_KEY_SHIFT else 0)
      + (if (m - 1).testBit 1 then MOD_KEY_ALT else 0)
      + (if (m - 1).testBit 2 then MOD_KEY_CTRL else 0)
      + (if (m - 1).testBit 3 then MOD_KEY_SUPER else 0) := by
  have hx : ¬((m : Int) - 1 < 0) := by omega
  have ht : ((m : Int) - 1).toNat = m - 1 := by omega
  simp only [remapXtermModifier, intTestBitMask, if_neg hx, ht, decide_eq_true_eq]
  simp only [land_one_ne, land_two_ne, land_four_ne, land_eight_ne]
  cases h0 : (m - 1).testBit 0 <;> cases h1 : (m - 1).testBit 1 <;>
    cases h2 : (m - 1).testBit 2 <;> cases h3 : (m - 1).testBit 3 <;> decide

/-- C5: decoding `ESC [ 1 ; 5 C` yields exactly one arrow-right event whose
modifier bitmask is the engine's Ctrl bit and nothing else; and in general
the second CSI parameter field `m ≥ 1` decodes as XTerm's encoded value
minus one (bit 0 = Shift, bit 1 = Alt, bit 2 = Ctrl, bit 3 = Super),
re-mapped onto the engine's own bit positions (`MOD_KEY_SHIFT = 1`,
`MOD_KEY_ALT = 4`, `MOD_KEY_CTRL = 2`, `MOD_KEY_SUPER = 8`). -/
theorem claim_C5_csi_modifier_decoding (m : Nat) (hm : 1 ≤ m) :
    parse_escape_sequence [0x1B, 0x5B, 0x31, 0x3B, 0x35, 0x43] 0 =
      (some ⟨"arrow_right", "", [0x1B, 0x5B, 0x31, 0x3B, 0x35, 0x43], MOD_KEY_CTRL⟩, 6)
    ∧ remapXtermModifier m =
        (if (m - 1).testBit 0 then MOD_KEY_SHIFT else 0)
        + (if (m - 1).testBit 1 then MOD_KEY_ALT else 0)
        + (if (m - 1).testBit 2 then MOD_KEY_CTRL else 0)
        + (if (m - 1).testBit 3 then MOD_KEY_SUPER else 0) :=
  ⟨by decide, remapXtermModifier_eq m hm⟩

/-- C5 witness: the XTerm field `5` (Ctrl) at the general statement. -/
theorem claim_C5_witness :
    parse_escape_sequence [0x1B, 0x5B, 0x31, 0x3B, 0x35, 0x43] 0 =
      (some ⟨"arrow_right", "", [0x1B, 0x5B, 0x31, 0x3B, 0x35, 0x43], MOD_KEY_CTRL⟩, 6)
    ∧ remapXtermModifier 5 =
        (if (5 - 1 : Nat).testBit 0 then MOD_KEY_SHIFT else 0)
        + (if (5 - 1 : Nat).testBit 1 then MOD_KEY_ALT else 0)
        + (if (5 - 1 : Nat).testBit 2 then MOD_KEY_CTRL else 0)
        + (if (5 - 1 : Nat).testBit 3 then MOD_KEY_SUPER else 0) :=
  claim_C5_csi_modifier_decoding 5 (by decide)

/-- C7: an `ESC` that is the last byte, or that is followed by a byte other
than `'O'` and `'['`, yields a bare Escape event; the returned
next-unprocessed index is `start_index + 1`, so a following byte is left
unconsumed for the main decode loop. -/
theorem claim_C7_bare_escape (raw_bytes : List Nat) (start_index : Nat)
    (hlt : start_index < raw_bytes.length)
    (hesc : raw_bytes.getD start_index 0 = 0x1B)
    (hnext : start_index + 1 < raw_bytes.length →
      raw_bytes.getD (start_index + 1) 0 ≠ 79 ∧ raw_bytes.getD (start_index + 1) 0 ≠ 91) :
    parse_escape_sequence raw_bytes start_index =
      (some ⟨"escape", "", [0x1B], 0⟩, start_index + 1) := by
  by_cases hend : raw_bytes.length ≤ start_index + 1
  · simp [parse_escape_sequence, hend]
  · have h2 := hnext (by omega)
    simp only [List.getD_eq_getElem?_getD] at h2
    simp [parse_escape_sequence, hend, h2.1, h2.2]

/-- C7 witness: `ESC x` — the `x` is left at index 1. -/
theorem claim_C7_witness :
    parse_escape_sequence [0x1B, 0x78] 0 = (some ⟨"escape", "", [0x1B], 0⟩, 1) :=
  claim_C7_bare_escape [0x1B, 0x78] 0 (by decide) (by decide)
    (fun _ => ⟨by decide, by decide⟩)

/-! ## Event ring buffer and decode loop (`tui.py` lines 531-606)

Only the ring-related fields of `app_state` are live here.  The byte-scanning
`while` loop of `write_events_to_ring` becomes a fuel recursion; with fuel at
least `len(raw_bytes)` the fuel never runs out because the loop strictly
advances (claim C10). -/

structure RingApp where
  event_ring : List (Option Event)
  ring_write_index : Nat
  ring_read_index : Nat
deriving DecidableEq, Repr

/-- The push pattern of `write_events_to_ring`:
`ring[write_index] = event; write_index = (write_index + 1) % capacity`. -/
def ringPush (app_state : RingApp) (event : Event) : RingApp :=
  { app_state with
    event_ring := app_state.event_ring.set app_state.ring_write_index (some event)
    ring_write_index := (app_state.ring_write_index + 1) % RING_BUFFER_CAPACITY }

/-- The non-escape byte classification chain of `write_events_to_ring`
(`0x0D` checked before the Ctrl range, printable fast path, Ctrl+letter,
anything else skipped). -/
def classifyByte (byte_value : Nat) : Option Event :=
  if byte_value = 0x0D then some ⟨"enter", "", [byte_value], 0⟩
  else if byte_value = 0x7F then some ⟨"backspace", "", [byte_value], 0⟩
  else if 0x20 ≤ byte_value ∧ byte_value ≤ 0x7E then
    some ⟨"char", String.singleton (Char.ofNat byte_value), [byte_value], 0⟩
  else if 0x01 ≤ byte_value ∧ byte_value ≤ 0x1A then
    some ⟨"char", String.singleton (Char.ofNat (byte_value + 0x60)), [byte_value], MOD_KEY_CTRL⟩
  else none

def writeEventsLoop : Nat → List Nat → RingApp → Nat → RingApp
  | 0, _, app_state, _ => app_state
  | fuel + 1, raw_bytes, app_state, byte_index =>
    if byte_index < raw_bytes.length then
      let byte_value := raw_bytes.getD byte_index 0
      if byte_value = 0x1B then
        let result := parse_escape_sequence raw_bytes byte_index
        let next_state := match result.1 with
          | none => app_state
          | some event => ringPush app_state event
        writeEventsLoop fuel raw_bytes next_state result.2
      else
        let next_state := match classifyByte byte_value with
          | none => app_state
          | some event => ringPush app_state event
        writeEventsLoop fuel raw_bytes next_state (byte_index + 1)
    else app_state

def write_events_to_ring (raw_bytes : List Nat) (app_state : RingApp) : RingApp :=
  writeEventsLoop raw_bytes.length raw_bytes app_state 0

def read_event_from_ring (app_state : RingApp) : Option Event × RingApp :=
  if app_state.ring_read_index = app_state.ring_write_index then
    (none, app_state)
  else
    (app_state.event_ring.getD app_state.ring_read_index none,
     { app_state with
        ring_read_index := (app_state.ring_read_index + 1) % RING_BUFFER_CAPACITY })

theorem collectParamsAux_bound (fuel : Nat) :
    ∀ (raw_bytes : List Nat) (index : Nat), index ≤ raw_bytes.length →
      index ≤ (collectParamsAux fuel raw_bytes index).2
      ∧ (collectParamsAux fuel raw_bytes index).2 ≤ raw_bytes.length := by
  induction fuel with
  | zero => intro raw_bytes index h; exact ⟨le_refl _, h⟩
  | succ fuel ih =>
    intro raw_bytes index h
    simp only [collectParamsAux]
    split
    · split
      · have hrec := ih raw_bytes (index + 1) (by omega)
        constructor
        · simp only []
          omega
        · simp only []
          omega
      · exact ⟨le_refl _, h⟩
    · exact ⟨le_refl _, h⟩

theorem collectParams_bound (raw_bytes : List Nat) (index : Nat) (h : index ≤ raw_bytes.length) :
    index ≤ (collectParams raw_bytes index).2
    ∧ (collectParams raw_bytes index).2 ≤ raw_bytes.length :=
  collectParamsAux_bound _ raw_bytes index h

theorem ite_pair_snd {α : Type} (c : Prop) [inst : Decidable c] (a b : α) (n : Nat) :
    (if c then (a, n) else (b, n)).2 = n := by
  split <;> rfl

theorem parse_escape_sequence_advances (raw_bytes : List Nat) (start_index : Nat)
    (hlt : start_index < raw_bytes.length) :
    start_index < (parse_escape_sequence raw_bytes start_index).2
    ∧ (parse_escape_sequence raw_bytes start_index).2 ≤ raw_bytes.length := by
  by_cases h1 : raw_bytes.length ≤ start_index + 1
  · simp only [parse_escape_sequence, if_pos h1]
    change start_index < start_index + 1 ∧ start_index + 1 ≤ raw_bytes.length
    omega
  · by_cases h2 : raw_bytes.getD (start_index + 1) 0 = 79
    · simp only [parse_escape_sequence, if_neg h1, if_pos h2]
      by_cases h3 : raw_bytes.length ≤ start_index + 1 + 1
      · rw [if_pos h3]
        change start_index < start_index + 1 + 1 ∧ start_index + 1 + 1 ≤ raw_bytes.length
        omega
      · rw [if_neg h3]
        rw [ite_pair_snd]
        omega
    · by_cases h4 : raw_bytes.getD (start_index + 1) 0 = 91
      · have h4nn : ¬raw_bytes.getD (start_index + 1) 0 ≠ 91 := not_not_intro h4
        obtain ⟨hcb1, hcb2⟩ := collectParams_bound raw_bytes (start_index + 1 + 1) (by omega)
        simp only [parse_escape_sequence, if_neg h1, if_neg h2, if_neg h4nn]
        by_cases h5 : raw_bytes.length ≤ (collectParams raw_bytes (start_index + 1 + 1)).2
        · rw [if_pos h5]
          change start_index < (collectParams raw_bytes (start_index + 1 + 1)).2
            ∧ (collectParams raw_bytes (start_index + 1 + 1)).2 ≤ raw_bytes.length
          omega
        · rw [if_neg h5]
          rw [ite_pair_snd]
          omega
      · have h4ne : raw_bytes.getD (start_index + 1) 0 ≠ 91 := h4
        simp only [parse_escape_sequence, if_neg h1, if_neg h2, if_pos h4ne]
        change start_index < start_index + 1 ∧ start_index + 1 ≤ raw_bytes.length
        omega

theorem writeEventsLoop_fuel_eq (raw_bytes : List Nat) :
    ∀ (f1 f2 : Nat) (app_state : RingApp) (byte_index : Nat),
      raw_bytes.length ≤ byte_index + f1 → raw_bytes.length ≤ byte_index + f2 →
      writeEventsLoop f1 raw_bytes app_state byte_index
        = writeEventsLoop f2 raw_bytes app_state byte_index := by
  intro f1
  induction f1 with
  | zero =>
    intro f2 app_state byte_index h1 h2
    have hge : ¬byte_index < raw_bytes.length := by omega
    cases f2 with
    | zero => rfl
    | succ f2 => simp [writeEventsLoop, hge]
  | succ f1 ih =>
    intro f2 app_state byte_index h1 h2
    by_cases hlt : byte_index < raw_bytes.length
    · cases f2 with
      | zero => exact absurd hlt (by omega)
      | succ f2 =>
        simp only [writeEventsLoop, if_pos hlt]
        by_cases hb : raw_bytes.getD byte_index 0 = 27
        · rw [if_pos hb, if_pos hb]
          have hadv := parse_escape_sequence_advances raw_bytes byte_index hlt
          exact ih f2 _ _ (by omega) (by omega)
        · rw [if_neg hb, if_neg hb]
          exact ih f2 _ _ (by omega) (by omega)
    · cases f2 with
      | zero => simp [writeEventsLoop, hlt]
      | succ f2 => simp [writeEventsLoop, hlt]

/-- C10: from any `0x1B` byte inside the input, `parse_escape_sequence`
returns a next-unprocessed index that strictly advances and never runs past
the buffer, so the byte-scanning loop of `write_events_to_ring` makes
progress on every iteration and terminates on every finite input (its result
is the same for any sufficient iteration budget). -/
theorem claim_C10_decode_loop_advances (raw_bytes : List Nat) (start_index : Nat)
    (app_state : RingApp) (f1 f2 : Nat)
    (hlt : start_index < raw_bytes.length)
    (hesc : raw_bytes.getD start_index 0 = 0x1B)
    (hf1 : raw_bytes.length ≤ f1) (hf2 : raw_bytes.length ≤ f2) :
    (start_index < (parse_escape_sequence raw_bytes start_index).2
      ∧ (parse_escape_sequence raw_bytes start_index).2 ≤ raw_bytes.length)
    ∧ writeEventsLoop f1 raw_bytes app_state 0 = writeEventsLoop f2 raw_bytes app_state 0 :=
  ⟨parse_escape_sequence_advances raw_bytes start_index hlt,
   writeEventsLoop_fuel_eq raw_bytes f1 f2 app_state 0 (by omega) (by omega)⟩

/-- C10 witness: a lone `ESC` byte with two different sufficient budgets. -/
theorem claim_C10_witness :
    ((0 : Nat) < (parse_escape_sequence [0x1B] 0).2
      ∧ (parse_escape_sequence [0x1B] 0).2 ≤ ([0x1B] : List Nat).length)
    ∧ writeEventsLoop 1 [0x1B] ⟨[none, none], 0, 0⟩ 0
        = writeEventsLoop 3 [0x1B] ⟨[none, none], 0, 0⟩ 0 :=
  claim_C10_decode_loop_advances [0x1B] 0 ⟨[none, none], 0, 0⟩ 1 3
    (by decide) (by decide) (by decide) (by decide)

/-- C4 counterexample: a full-capacity ring (`read = 0`, `write = 63`, 63
unread events, the head retrievable) receives one more event through
`write_events_to_ring`.  The write index catches up to the read index after
its full lap, and `read_event_from_ring` then returns `none`: every unread
event has become unretrievable, not just the oldest one. -/
theorem claim_C4_counterexample :
    (read_event_from_ring
        ⟨List.replicate 64 (some ⟨"char", "b", [0x62], 0⟩), 63, 0⟩).1
      = some ⟨"char", "b", [0x62], 0⟩
    ∧ (write_events_to_ring [0x61]
        ⟨List.replicate 64 (some ⟨"char", "b", [0x62], 0⟩), 63, 0⟩).ring_write_index
      = (write_events_to_ring [0x61]
        ⟨List.replicate 64 (some ⟨"char", "b", [0x62], 0⟩), 63, 0⟩).ring_read_index
    ∧ (read_event_from_ring (write_events_to_ring [0x61]
        ⟨List.replicate 64 (some ⟨"char", "b", [0x62], 0⟩), 63, 0⟩)).1 = none := by
  refine ⟨rfl, rfl, rfl⟩

/-- C4 amended: when a push makes the write index catch up to the read index
after a full lap, only the slot at the old write index is physically
overwritten and no error is raised, but the ring then reads as empty —
`read_event_from_ring` returns `none` and leaves the state unchanged, so all
unread events (not just the oldest) become unretrievable. -/
theorem claim_C4_amended_overflow_loses_all (app_state : RingApp) (event : Event)
    (hcatch : (app_state.ring_write_index + 1) % RING_BUFFER_CAPACITY
      = app_state.ring_read_index) :
    (ringPush app_state event).event_ring
      = app_state.event_ring.set app_state.ring_write_index (some event)
    ∧ (ringPush app_state event).ring_write_index
      = (ringPush app_state event).ring_read_index
    ∧ read_event_from_ring (ringPush app_state event)
      = (none, ringPush app_state event) := by
  refine ⟨rfl, ?_, ?_⟩
  · simpa [ringPush] using hcatch
  · simp [read_event_from_ring, ringPush, hcatch]

/-- C4 amended witness: a concrete caught-up push on a 64-slot ring. -/
theorem claim_C4_amended_witness :
    (ringPush ⟨List.replicate 64 none, 63, 0⟩ ⟨"enter", "", [0x0D], 0⟩).event_ring
      = (List.replicate 64 (none : Option Event)).set 63 (some ⟨"enter", "", [0x0D], 0⟩)
    ∧ (ringPush ⟨List.replicate 64 none, 63, 0⟩ ⟨"enter", "", [0x0D], 0⟩).ring_write_index
      = (ringPush ⟨List.replicate 64 none, 63, 0⟩ ⟨"enter", "", [0x0D], 0⟩).ring_read_index
    ∧ read_event_from_ring (ringPush ⟨List.replicate 64 none, 63, 0⟩ ⟨"enter", "", [0x0D], 0⟩)
      = (none, ringPush ⟨List.replicate 64 none, 63, 0⟩ ⟨"enter", "", [0x0D], 0⟩) :=
  claim_C4_amended_overflow_loses_all ⟨List.replicate 64 none, 63, 0⟩
    ⟨"enter", "", [0x0D], 0⟩ (by decide)

end Tui
